import Mathlib

/-!
# Verification of the AI mixing/mastering engine's decision and DSP layer

Shallow embedding, over exact rational arithmetic, of the decision logic and
sample-level signal chains of the audio engine (`backend/audio_engine`):
the mid/side transform, the limiters' final safety clips, the stem-name
classifier, the genre-override policy, the masking-severity computation, the
intelligent balancer's gain formula, the sidechain compressor and matrix, the
final loudness-match loop, and the mono-compatibility check.

Transcendental primitives of the source (float `exp`, `log10`, `10**x`,
`sqrt`) are passed in as explicit function parameters where their particular
values do not matter, so every definition stays computable; the properties a
proof needs of them (for instance that `10 ** (-x) ≤ 1` for `x ≥ 0`) appear
as hypotheses and are discharged at concrete instances.
-/

namespace AudioEngine

/-- `np.clip(x, lo, hi)`: clamp a sample into `[lo, hi]`. -/
def npClip (lo hi x : ℚ) : ℚ := min hi (max lo x)

/-! ## Mid/Side transform (`mixer/effects/stereo.py`, `StereoProcessor`) -/

/-- `StereoProcessor._to_mid_side`: `mid = (L+R)/2`, `side = (L-R)/2`,
computed sample-wise over the two channels of a stereo buffer. -/
def toMidSide (audio : List ℚ × List ℚ) : List ℚ × List ℚ :=
  (List.zipWith (fun l r => (l + r) / 2) audio.1 audio.2,
   List.zipWith (fun l r => (l - r) / 2) audio.1 audio.2)

/-- `StereoProcessor._to_left_right`: `left = mid + side`, `right = mid - side`. -/
def toLeftRight (mid side : List ℚ) : List ℚ × List ℚ :=
  (List.zipWith (fun m s => m + s) mid side,
   List.zipWith (fun m s => m - s) mid side)

/-! ## Shared numeric helpers for the analysis code -/

/-- `np.mean` of a 1-D array (empty array modeled as `0`, where numpy
would produce a NaN warning value). -/
def listMean (l : List ℚ) : ℚ := l.sum / l.length

/-- Largest element of a list (`np.max`; numpy raises on an empty array,
modeled here as `0`). -/
def listMax : List ℚ → ℚ
  | [] => 0
  | x :: xs => xs.foldl max x

/-- Subtract the mean from every element, as `np.cov` does internally. -/
def centered (l : List ℚ) : List ℚ := l.map (fun x => x - listMean l)

/-- Unnormalized covariance sum `Σ (aᵢ - ā)(bᵢ - b̄)`.  `np.cov` divides this
by `n - 1`, but that factor cancels between the numerator and denominator of
a correlation coefficient, so it is omitted here. -/
def covSum (a b : List ℚ) : ℚ := (List.zipWith (· * ·) (centered a) (centered b)).sum

/-- Unnormalized variance sum `Σ (aᵢ - ā)²`. -/
def varSum (a : List ℚ) : ℚ := covSum a a

/-- `np.corrcoef(a, b)[0, 1]`: Pearson correlation
`cov(a,b) / (√var(a) · √var(b))`.  When either channel has zero variance the
float computation is `0/0 = NaN`; that case is modeled as `none`.  The float
square root is passed in as `sqrt0`. -/
def corrcoefQ (sqrt0 : ℚ → ℚ) (a b : List ℚ) : Option ℚ :=
  if varSum a = 0 ∨ varSum b = 0 then none
  else some (covSum a b / (sqrt0 (varSum a) * sqrt0 (varSum b)))

/-! ## ProLimiter (`masterer/pro_limiter.py`)

`ProLimiter.process(audio, ceiling_db, threshold_db, release_ms, lookahead_ms)`:
edge-pad by the lookahead, compute the cross-channel peak envelope, derive a
gain-reduction curve (`ceiling / (peak + 1e-10)` where the peak exceeds the
threshold), smooth it with instant attack / one-pole release, apply it, drop
the lookahead, and finally `np.clip` to `±ceiling_linear`.

The linear ceiling `c` stands for `10 ** (ceiling_db / 20)` (always positive),
the linear threshold `t` for `10 ** (threshold_db / 20)`, and `ρ` for the
release coefficient `exp(-1 / release_samples)`. -/

/-- Instant-attack / smoothed-release recursion of
`ProLimiter._calculate_gain_reduction` (the loop from index 1, with `prev`
the previously emitted value). -/
def smoothReleaseAux (ρ : ℚ) : ℚ → List ℚ → List ℚ
  | _, [] => []
  | prev, g :: gs =>
      let s := if g < prev then g else ρ * prev + (1 - ρ) * g
      s :: smoothReleaseAux ρ s gs

/-- `ProLimiter._calculate_gain_reduction`'s smoothing pass:
`smoothed[0] = gain[0]`, then instant attack / one-pole release. -/
def smoothRelease (ρ : ℚ) : List ℚ → List ℚ
  | [] => []
  | g :: gs => g :: smoothReleaseAux ρ g gs

/-- `ProLimiter.process` on a stereo buffer `(l, r)`, with linear ceiling `c`,
linear threshold `t`, release coefficient `ρ`, and `n` lookahead samples. -/
def proLimiterProcess (l r : List ℚ) (c t ρ : ℚ) (n : ℕ) : List ℚ × List ℚ :=
  let bl := List.replicate n (l.headD 0) ++ l
  let br := List.replicate n (r.headD 0) ++ r
  let peak := List.zipWith (fun a b => max |a| |b|) bl br
  let gr := peak.map (fun p => if t < p then c / (p + 1 / 10000000000) else 1)
  let sm := smoothRelease ρ gr
  let ll := (List.zipWith (· * ·) bl sm).drop n
  let lr := (List.zipWith (· * ·) br sm).drop n
  (ll.map (npClip (-c) c), lr.map (npClip (-c) c))

/-- `ProLimiter.process` on a mono buffer: the input is duplicated to stereo,
processed, and the two (identical-gain) output channels are averaged back
(`np.mean(output, axis=0)`). -/
def proLimiterProcessMono (x : List ℚ) (c t ρ : ℚ) (n : ℕ) : List ℚ :=
  let st := proLimiterProcess x x c t ρ n
  List.zipWith (fun u v => (u + v) / 2) st.1 st.2

/-! ## Transparent limiter (`masterer/simple_master.py`)

`SimpleMasteringEngine._transparent_limiter(audio, ceiling)`: asymmetric
envelope follower over the cross-channel peak signal, lookahead shift, gain
reduction `ceiling / envelope` above the ceiling, 1 ms moving-average
smoothing via `np.convolve(..., 'same')`, gain application, and a final
`np.clip(result, -ceiling, ceiling)`.  `aC`/`rC` stand for the attack and
release coefficients `exp(-1/(ms · sr / 1000))`. -/

/-- The envelope-follower loop (`env` starts at `0.0`; attack branch when the
rectified peak exceeds the current envelope, release branch otherwise). -/
def envFollowAux (aC rC : ℚ) : ℚ → List ℚ → List ℚ
  | _, [] => []
  | env, p :: ps =>
      let e := if env < p then aC * env + (1 - aC) * p else rC * env + (1 - rC) * p
      e :: envFollowAux aC rC e ps

/-- `np.convolve(a, v, mode='same')`: the centered `max(|a|,|v|)` samples of
the full convolution. -/
def convSame (a v : List ℚ) : List ℚ :=
  (List.range (max a.length v.length)).map fun j =>
    ((List.range a.length).map fun i =>
      if i ≤ j + (min a.length v.length - 1) / 2
      then a.getD i 0 * v.getD (j + (min a.length v.length - 1) / 2 - i) 0
      else 0).sum

/-- `SimpleMasteringEngine._transparent_limiter` on a stereo buffer, with
linear ceiling `c`, attack/release coefficients `aC`/`rC`, `n` lookahead
samples and a moving-average kernel of `k` samples. -/
def transparentLimiter (l r : List ℚ) (c aC rC : ℚ) (n k : ℕ) : List ℚ × List ℚ :=
  let peak := List.zipWith (fun a b => max |a| |b|) l r
  let env0 := envFollowAux aC rC 0 peak
  let env := if 0 < n then env0.drop n ++ List.replicate n (env0.getLastD 0) else env0
  let gain0 := env.map (fun e => if c < e then c / e else 1)
  let gain := if 1 < k then convSame gain0 (List.replicate k ((1 : ℚ) / k)) else gain0
  ((List.zipWith (· * ·) l gain).map (npClip (-c) c),
   (List.zipWith (· * ·) r gain).map (npClip (-c) c))

/-! ## Final loudness match (`masterer/mastering_engine.py`)

`MasteringEngine._final_loudness_match(audio, target_lufs, ceiling_dbTP)`
iterates at most 3 times: measure the metrics, stop when the LUFS error is
below 0.5, otherwise apply `0.7 · Δ` dB of scalar gain and re-run the limiter
only when the *pre-gain* metrics showed the true peak above the ceiling.

The buffer is represented by its exact metrics in dB: scalar gain of `g` dB
shifts both the true peak and the integrated loudness by exactly `g` (true of
the mathematical metrics, since both scale linearly with the signal), and
`limiter.process` is modeled charitably as capping the true peak at the
ceiling (the real limiter clips samples, which can only do worse for
inter-sample peaks). -/

/-- The exact metrics the loop reads: true peak (dBTP) and integrated
loudness (LUFS), as returned by `loudness_analyzer.analyze`. -/
structure TrackMetrics where
  tp : ℚ
  lufs : ℚ
deriving DecidableEq, Repr

/-- One iteration of the `for i in range(3)` loop of `_final_loudness_match`:
once the `break` condition `|Δ| < 0.5` holds it keeps holding (the state is
returned unchanged), so the loop with `break` equals three applications of
this step. -/
def flmStep (target ceiling : ℚ) (m : TrackMetrics) : TrackMetrics :=
  if |target - m.lufs| < 1 / 2 then m
  else
    let gainDb := (target - m.lufs) * (7 / 10)
    let m1 : TrackMetrics := ⟨m.tp + gainDb, m.lufs + gainDb⟩
    if ceiling < m.tp then ⟨min m1.tp ceiling, m1.lufs⟩ else m1

/-- `MasteringEngine._final_loudness_match` (3 iterations). -/
def finalLoudnessMatch (target ceiling : ℚ) (m : TrackMetrics) : TrackMetrics :=
  flmStep target ceiling (flmStep target ceiling (flmStep target ceiling m))

/-! ## Mono compatibility (`mixer/effects/stereo.py`) -/

/-- Result of `StereoProcessor.check_mono_compatibility`; `correlation` is
`none` when the float computation yields NaN. -/
structure MonoCompatReport where
  correlation : Option ℚ
  phaseIssues : Bool
  monoCompatible : Bool
  cancellationDb : ℚ
deriving Repr

/-- `StereoProcessor.check_mono_compatibility` on a stereo buffer.
`sqrt0` and `log10f` stand for the float `sqrt` and `log10`.  Comparisons
against a NaN correlation are `False`, as in IEEE float semantics. -/
def checkMonoCompatibility (sqrt0 log10f : ℚ → ℚ) (l r : List ℚ) :
    MonoCompatReport :=
  let corr := corrcoefQ sqrt0 l r
  let phase := match corr with
    | none => false
    | some cv => decide (cv < 1 / 10)
  let mono := List.zipWith (fun a b => (a + b) / 2) l r
  let monoLevel := sqrt0 (listMean (mono.map (fun x => x ^ 2)))
  let stereoLevel := sqrt0 (listMean (List.zipWith (fun a b => (a ^ 2 + b ^ 2) / 2) l r))
  let canc := 20 * log10f (monoLevel / (stereoLevel + 1 / 10000000000) + 1 / 10000000000)
  let compat := (match corr with
    | none => false
    | some cv => decide (1 / 10 ≤ cv)) && decide (-6 < canc)
  ⟨corr, phase, compat, canc⟩

/-! ## Stem classifier (`analyzer/classifier.py`, `SourceClassifier`) -/

/-- ASCII lower-casing of one character (Python's `str.lower()` on the ASCII
stem names the classifier tables address). -/
def charLower (c : Char) : Char :=
  if 'A' ≤ c ∧ c ≤ 'Z' then Char.ofNat (c.toNat + 32) else c

/-- `name.lower()` as a character list. -/
def lowerChars (s : String) : List Char := s.toList.map charLower

/-- Python's substring test `p in s`. -/
def containsSub (needle : List Char) : List Char → Bool
  | [] => needle.isEmpty
  | c :: cs => needle.isPrefixOf (c :: cs) || containsSub needle cs

/-- The ordered keyword tables of `SourceClassifier._classify_by_filename`,
in source order: the first table containing a keyword that occurs in the
lower-cased name decides the role. -/
def filenamePatterns : List (List String × String) :=
  [ (["kick", "bd", "bassdrum", "808", "boom"], "kick"),
    (["bass", "sub", "low end", "lowend"], "bass"),
    (["snare", "sd", "clap", "rimshot", "snr"], "snare"),
    (["hi-hat", "hihat", "hh", "hat", "shaker", "cymbal", "ride", "crash"], "hihat"),
    (["perc", "conga", "bongo", "tom", "toms", "tamb"], "percussion"),
    (["drum", "drums", "beat", "loop"], "drums"),
    (["vocal", "vox", "voice", "sing", "adlib", "hook", "verse", "chorus"], "vocal"),
    (["synth", "pad", "lead", "arp", "pluck", "stab", "chord"], "synth"),
    (["piano", "keys", "keyboard", "organ", "rhodes", "wurli", "ep"], "piano"),
    (["guitar", "gtr", "acoustic", "electric", "strum"], "guitar"),
    (["string", "violin", "cello", "orchestra"], "synth"),
    (["fx", "effect", "riser", "impact", "sweep", "noise", "atmos", "ambient"], "fx") ]

/-- `SourceClassifier._classify_by_filename`: the role of the first keyword
table with a match in the lower-cased name, `none` when nothing matches. -/
def classifyByFilename (name : String) : Option String :=
  filenamePatterns.findSome? fun e =>
    if e.1.any (fun p => containsSub p.toList (lowerChars name)) then some e.2 else none

/-- `SourceClassifier.classify`: the filename heuristic first, with
confidence 1.0 on a hit; only on a miss does the audio-feature fallback run.
The entire feature-scoring path (`_extract_features` / `_score_category`) is
the `fallback` parameter, applied to the untouched audio. -/
def classify {α : Type} (fallback : α → String × ℚ) (audio : α) (name : String) :
    String × ℚ :=
  match classifyByFilename name with
  | some c => (c, 1)
  | none => fallback audio

/-! ## Masking analyzer (`analyzer/masking.py`, `MaskingAnalyzer._detect_conflict`)

`_detect_conflict(spec1, spec2, freq_range, ...)`: restrict both magnitude
spectrograms to the rows of the frequency band (`mask`, identical for both
stems), average over those rows per time frame, normalize each envelope by
its own maximum (+1e-10), then `severity = max(0, (corr + overlap) / 2)` with
`corr = np.corrcoef(e1, e2)[0,1]` and `overlap = mean(minimum(e1, e2))`. -/

/-- `spec[mask, :]`: keep the rows whose band flag is set. -/
def selectRows (mask : List Bool) (spec : List (List ℚ)) : List (List ℚ) :=
  (List.zip mask spec).filterMap fun p => if p.1 then some p.2 else none

/-- Column-wise sum of a row list (`np.sum(..., axis=0)`). -/
def sumCols : List (List ℚ) → List ℚ
  | [] => []
  | row :: rows => rows.foldl (fun acc r => List.zipWith (· + ·) acc r) row

/-- `np.mean(spec[mask, :], axis=0)`: the band-limited energy envelope of one
stem.  (An empty row selection, a NaN vector in numpy, is modeled as the
empty list; it lands in the severity-0 branch either way, matching Python's
`max(0, nan) = 0`.) -/
def bandEnvelope (mask : List Bool) (spec : List (List ℚ)) : List ℚ :=
  (sumCols (selectRows mask spec)).map fun x => x / (selectRows mask spec).length

/-- Normalization `energy / (np.max(energy) + 1e-10)`. -/
def normEnv (e : List ℚ) : List ℚ :=
  e.map fun x => x / (listMax e + 1 / 10000000000)

/-- The correlation/overlap/severity computation of `_detect_conflict` on the
two band envelopes.  A NaN correlation (`corrcoefQ = none`) propagates
through `(corr + overlap)/2` and Python's `max(0, nan)` evaluates to `0`. -/
def conflictCore (sqrt0 : ℚ → ℚ) (e1 e2 : List ℚ) : ℚ :=
  if 0 < e1.length ∧ 0 < e2.length then
    match corrcoefQ sqrt0 (normEnv e1) (normEnv e2) with
    | none => 0
    | some corr =>
        max 0 ((corr + listMean (List.zipWith min (normEnv e1) (normEnv e2))) / 2)
  else 0

/-- The `severity` field `_detect_conflict` reports for two spectrograms on
one critical band. -/
def detectConflictSeverity (sqrt0 : ℚ → ℚ) (mask : List Bool)
    (spec1 spec2 : List (List ℚ)) : ℚ :=
  conflictCore sqrt0 (bandEnvelope mask spec1) (bandEnvelope mask spec2)

/-! ## Intelligent balancer (`mixer/intelligent_balancer.py`) -/

/-- The role → reference-offset table `IntelligentMixBalancer.reference_levels`
(dB relative to the loudest stem). -/
def referenceLevels : List (String × ℚ) :=
  [("kick", -6), ("bass", -8), ("snare", -10), ("drums", -8), ("vocal", -8),
   ("lead_vocal", -7), ("backing_vocal", -12), ("synth", -12), ("pad", -14),
   ("lead", -10), ("guitar", -11), ("piano", -11), ("strings", -13),
   ("fx", -16), ("other", -12)]

/-- `self.reference_levels.get(role, -12.0)`. -/
def refLevel (role : String) : ℚ := (referenceLevels.lookup role).getD (-12)

/-- The two analysis values `calculate_optimal_levels` reads per stem, as
produced by `_analyze_stem`: `rms_db = 20·log10(rms + 1e-10)` and
`peak_db = 20·log10(peak + 1e-10)` of the mono-folded stem. -/
structure StemAnalysis where
  rmsDb : ℚ
  peakDb : ℚ
deriving DecidableEq, Repr

/-- The per-stem gain of `IntelligentMixBalancer.calculate_optimal_levels`:
`clip(max_rms + offset[role] − rms_db, −24, 12)`, then the quiet-stem cap
(`min · 6` when `rms_db < −60`), then the loud-stem cut
(`min · −(peak_db − (−6))` when `peak_db > −3`). -/
def stemGain (maxRms : ℚ) (role : String) (a : StemAnalysis) : ℚ :=
  let g0 := npClip (-24) 12 (maxRms + refLevel role - a.rmsDb)
  let g1 := if a.rmsDb < -60 then min g0 6 else g0
  if -3 < a.peakDb then min g1 (-(a.peakDb - (-6))) else g1

/-- `max(a['rms_db'] for a in stem_analysis.values())` (Python raises on an
empty stem set; the empty case is junk `0` here and never used). -/
def maxRmsOf (stems : List (String × StemAnalysis)) : ℚ :=
  listMax (stems.map fun s => s.2.rmsDb)

/-- `IntelligentMixBalancer.calculate_optimal_levels`: per-stem gains keyed
by stem name, with roles from `stem_roles.get(name, 'other')`. -/
def calculateOptimalLevels (stems : List (String × StemAnalysis))
    (roles : List (String × String)) : List (String × ℚ) :=
  stems.map fun s =>
    (s.1, stemGain (maxRmsOf stems) ((roles.lookup s.1).getD "other") s.2)

/-! ## Genre detector (`analyzer/genre_detector.py`, `GenreDetector`)

`detect_genre` derives an analysis dict from the rough mix, scores the eight
genres with `_calculate_genre_scores`, normalizes the scores to sum to 1,
takes the best genre (Python's `max(d, key=d.get)`: the first key attaining
the maximum, in insertion order), and finally applies the tempo-based
override for electronic music. -/

/-- The analysis values `_calculate_genre_scores` reads, as produced by
`_analyze_audio` from the rough mix. -/
structure AudioAnalysis where
  tempo : ℚ
  bassRatio : ℚ
  subBassRatio : ℚ
  midRatio : ℚ
  highRatio : ℚ
  brightness : ℚ
  presenceRatio : ℚ
  crestFactor : ℚ
  dynamicRangeDb : ℚ
  transientDensity : ℚ
  fourOnFloorScore : ℚ
deriving DecidableEq, Repr

/-- The `house` rule set of `_calculate_genre_scores`. -/
def houseScore (a : AudioAnalysis) : ℚ :=
  (if 120 ≤ a.tempo ∧ a.tempo ≤ 128 then 0.50
   else if 118 ≤ a.tempo ∧ a.tempo ≤ 130 then 0.40
   else if 115 ≤ a.tempo ∧ a.tempo ≤ 133 then 0.25 else 0)
  + (if 0.15 < a.bassRatio then 0.20 else 0)
  + (if a.midRatio < 0.45 then 0.15 else 0)
  + (if 0.25 < a.transientDensity then 0.10 else 0)
  + (if 0.4 < a.fourOnFloorScore then 0.15 else 0)

/-- The `techno` rule set. -/
def technoScore (a : AudioAnalysis) : ℚ :=
  (if 128 ≤ a.tempo ∧ a.tempo ≤ 140 then 0.45
   else if 125 ≤ a.tempo ∧ a.tempo ≤ 145 then 0.35 else 0)
  + (if 0.18 < a.bassRatio then 0.20 else 0)
  + (if a.midRatio < 0.40 then 0.15 else 0)
  + (if 0.4 < a.fourOnFloorScore then 0.15 else 0)

/-- The `edm` rule set. -/
def edmScore (a : AudioAnalysis) : ℚ :=
  (if 128 ≤ a.tempo ∧ a.tempo ≤ 150 then 0.40
   else if 125 ≤ a.tempo ∧ a.tempo ≤ 160 then 0.30 else 0)
  + (if 0.20 < a.bassRatio then 0.20 else 0)
  + (if a.crestFactor < 6 then 0.15 else 0)
  + (if 0.10 < a.highRatio then 0.15 else 0)

/-- The `hiphop` rule set. -/
def hiphopScore (a : AudioAnalysis) : ℚ :=
  (if 75 ≤ a.tempo ∧ a.tempo ≤ 95 then 0.45
   else if 70 ≤ a.tempo ∧ a.tempo ≤ 100 then 0.35
   else if 65 ≤ a.tempo ∧ a.tempo ≤ 110 then 0.15 else 0)
  + (if 0.06 < a.subBassRatio then 0.25 else 0)
  + (if 0.25 < a.bassRatio then 0.15 else 0)

/-- The `pop` rule set. -/
def popScore (a : AudioAnalysis) : ℚ :=
  (if 100 ≤ a.tempo ∧ a.tempo ≤ 125 then 0.30 else 0)
  + (if 0.12 < a.bassRatio ∧ a.bassRatio < 0.28 then 0.20 else 0)
  + (if 0.25 < a.midRatio ∧ a.midRatio < 0.45 then 0.15 else 0)
  + (if 0.4 < a.brightness then 0.15 else 0)
  + (if 0.08 < a.presenceRatio then 0.15 else 0)

/-- The `rock` rule set. -/
def rockScore (a : AudioAnalysis) : ℚ :=
  (if 100 ≤ a.tempo ∧ a.tempo ≤ 145 then 0.10 else 0)
  + (if 0.50 < a.midRatio then 0.30 else if 0.45 < a.midRatio then 0.15 else 0)
  + (if 7 < a.crestFactor then 0.25 else if 5 < a.crestFactor then 0.10 else 0)
  + (if 18 < a.dynamicRangeDb then 0.20 else if 14 < a.dynamicRangeDb then 0.10 else 0)
  + (if a.subBassRatio < 0.04 then 0.15 else 0)

/-- The `rnb` rule set. -/
def rnbScore (a : AudioAnalysis) : ℚ :=
  (if 65 ≤ a.tempo ∧ a.tempo ≤ 95 then 0.40
   else if 60 ≤ a.tempo ∧ a.tempo ≤ 100 then 0.25 else 0)
  + (if 0.15 < a.bassRatio ∧ a.bassRatio < 0.28 then 0.20 else 0)
  + (if a.brightness < 0.6 then 0.15 else 0)
  + (if 0.08 < a.presenceRatio then 0.15 else 0)

/-- The `acoustic` rule set. -/
def acousticScore (a : AudioAnalysis) : ℚ :=
  (if 20 < a.dynamicRangeDb then 0.35 else if 16 < a.dynamicRangeDb then 0.20 else 0)
  + (if 8 < a.crestFactor then 0.30 else if 6 < a.crestFactor then 0.15 else 0)
  + (if a.subBassRatio < 0.03 then 0.20 else 0)
  + (if a.transientDensity < 0.25 then 0.15 else 0)

/-- `_calculate_genre_scores` before normalization, in the scores dict's
insertion order. -/
def rawScores (a : AudioAnalysis) : List (String × ℚ) :=
  [("house", houseScore a), ("techno", technoScore a), ("edm", edmScore a),
   ("hiphop", hiphopScore a), ("pop", popScore a), ("rock", rockScore a),
   ("rnb", rnbScore a), ("acoustic", acousticScore a)]

/-- The final normalization of `_calculate_genre_scores`: divide by the total
when it is positive. -/
def normalizeScores (scores : List (String × ℚ)) : List (String × ℚ) :=
  if 0 < (scores.map Prod.snd).sum
  then scores.map fun p => (p.1, p.2 / (scores.map Prod.snd).sum)
  else scores

/-- Python's `max(genre_scores, key=genre_scores.get)` together with the
score it attains: the first entry whose value is maximal (later entries
replace the running best only when strictly greater). -/
def maxByFirst : List (String × ℚ) → String × ℚ
  | [] => ("", 0)
  | p :: ps => ps.foldl (fun best q => if best.2 < q.2 then q else best) p

/-- The tempo-based override block of `detect_genre` (lines 139–155): the
house branch fires for tempo in [118, 130] when the winner is not already an
electronic genre and its confidence is below 0.40; otherwise (`elif`) the
techno branch fires under the analogous condition for [128, 145]. -/
def applyTempoOverride (best : String × ℚ) (tempo : ℚ) : String × ℚ :=
  if (118 ≤ tempo ∧ tempo ≤ 130) ∧
      best.1 ∉ (["house", "techno", "edm"] : List String) then
    if best.2 < 0.40 then ("house", 0.45) else best
  else if (128 ≤ tempo ∧ tempo ≤ 145) ∧
      best.1 ∉ (["house", "techno", "edm"] : List String) then
    if best.2 < 0.40 then ("techno", 0.40) else best
  else best

/-- The `(detected_genre, confidence)` pair `GenreDetector.detect_genre`
returns, as a function of the audio analysis. -/
def detectGenreDecision (a : AudioAnalysis) : String × ℚ :=
  applyTempoOverride (maxByFirst (normalizeScores (rawScores a))) a.tempo

/-! ## Sidechain compressor (`mixer/effects/compressor.py`,
`StudioCompressor.sidechain_compress` and `_calculate_envelope`)

The (optionally band-filtered) sidechain is rectified and smoothed by an
attack/release envelope follower; `envelope_db = 20·log10(|env| + 1e-10)`;
above the threshold the gain reduction is
`(envelope_db − threshold_db)·(1 − 1/ratio)` dB, else 0; the target is
multiplied by `10^(−gr_db/20)` sample-wise.  The float `log10` and `10**x`
are the parameters `log10f`/`pow10f`; `aA`/`rA` are the attack and release
alphas `1 − exp(−1/samples)`.  The optional Butterworth pre-filter only
changes which buffer the envelope is computed from, so `sidechain` here
stands for the (already filtered) sidechain signal. -/

/-- The `_calculate_envelope` loop from index 1 (`prev` is `envelope[i-1]`;
attack alpha when the rectified sample exceeds it, release alpha else). -/
def scEnvAux (aA rA : ℚ) : ℚ → List ℚ → List ℚ
  | _, [] => []
  | prev, x :: xs =>
      let e := if prev < x then aA * x + (1 - aA) * prev
               else rA * x + (1 - rA) * prev
      e :: scEnvAux aA rA e xs

/-- `StudioCompressor._calculate_envelope`: rectify, seed with the first
sample, then the attack/release recursion. -/
def scEnvelope (aA rA : ℚ) (audio : List ℚ) : List ℚ :=
  match audio.map (fun x => |x|) with
  | [] => []
  | x :: xs => x :: scEnvAux aA rA x xs

/-- The envelope level in dB at sample `i`:
`20 · log10(|envelope[i]| + 1e-10)`. -/
def envDb (log10f : ℚ → ℚ) (aA rA : ℚ) (sidechain : List ℚ) (i : ℕ) : ℚ :=
  20 * log10f (|(scEnvelope aA rA sidechain).getD i 0| + 1 / 10000000000)

/-- The per-sample linear gains of `sidechain_compress`:
`10^(−gr_db/20)` with `gr_db` zero at or below threshold. -/
def sidechainGains (log10f pow10f : ℚ → ℚ) (aA rA thr ratio : ℚ)
    (sidechain : List ℚ) : List ℚ :=
  (scEnvelope aA rA sidechain).map fun e =>
    pow10f (-(if thr < 20 * log10f (|e| + 1 / 10000000000) then
      (20 * log10f (|e| + 1 / 10000000000) - thr) * (1 - 1 / ratio) else 0) / 20)

/-- `StudioCompressor.sidechain_compress` (mono target path; the stereo path
multiplies each channel by the same gain vector). -/
def sidechainCompress (log10f pow10f : ℚ → ℚ) (aA rA thr ratio : ℚ)
    (audio sidechain : List ℚ) : List ℚ :=
  List.zipWith (· * ·) audio (sidechainGains log10f pow10f aA rA thr ratio sidechain)

/-! ## Sidechain matrix (`mixer/sidechain_matrix.py`, `SidechainMatrix`)

`apply_sidechains(stems, stem_roles, masking_recommendations)` starts from
`stems.copy()`, walks the static rule table, and for every (source stem,
target stem) pair whose roles match a rule — with the source present in the
original `stems` dict and the target present in the working dict — replaces
the target's entry by `sidechain_compress(processed[target], stems[source])`.
The sidechain input is always the *original* source buffer, and
`sidechain_compress` returns a fresh array, so no input array is mutated.
Masking-derived sidechain recommendations are then layered on the same
working dict (the code passes the recommendation's `reduction_db` in the
`ratio` argument — reproduced faithfully here).  The compressor itself is
the `compress` parameter. -/

/-- One static rule's settings (`freq_range`, `threshold_db`, `ratio`,
`attack_ms`, `release_ms`). -/
structure SCSettings where
  freqRange : Option (ℚ × ℚ)
  thresholdDb : ℚ
  ratio : ℚ
  attackMs : ℚ
  releaseMs : ℚ
deriving Repr

/-- The static table `SidechainMatrix.sidechain_rules`:
`(source_role, target_role, settings)`. -/
def sidechainRules : List (String × String × SCSettings) :=
  [ ("kick", "bass", ⟨some (40, 120), -20, 10, 5, 100⟩),
    ("kick", "synth", ⟨some (40, 150), -22, 6, 5, 120⟩),
    ("vocal", "synth", ⟨none, -25, 3, 10, 150⟩),
    ("vocal", "guitar", ⟨none, -25, 3, 10, 150⟩),
    ("vocal", "piano", ⟨none, -26, 2.5, 15, 180⟩),
    ("snare", "vocal", ⟨some (2000, 5000), -18, 4, 3, 60⟩) ]

/-- A masking recommendation's `sidechain` entry (`source`, `target`,
`frequency_range`, `reduction_db`, `attack_ms`, `release_ms`). -/
structure SidechainRec where
  source : String
  target : String
  frequencyRange : Option (ℚ × ℚ)
  reductionDb : ℚ
  attackMs : ℚ
  releaseMs : ℚ
deriving Repr

/-- One masking recommendation; only recommendations carrying a
`'sidechain'` key act here. -/
structure MaskingRec where
  sidechain : Option SidechainRec
deriving Repr

/-- `processed_stems[target] = new_audio`: replace the value stored under an
existing key, keeping every other entry (Python dict assignment; the matrix
only assigns keys the guard has just found present). -/
def updateStem : List (String × List ℚ) → String → List ℚ → List (String × List ℚ)
  | [], _, _ => []
  | p :: ps, n, v => (if p.1 = n then (p.1, v) else p) :: updateStem ps n v

/-- The guarded body shared by both passes: when the source is in the
original `stems` and the target is in the working dict, compress the
target's working buffer against the *original* source buffer. -/
def applyRulePair (compress : SCSettings → List ℚ → List ℚ → List ℚ)
    (stems : List (String × List ℚ)) (settings : SCSettings)
    (acc : List (String × List ℚ)) (s t : String) : List (String × List ℚ) :=
  match stems.lookup s, acc.lookup t with
  | some src, some tgt => updateStem acc t (compress settings tgt src)
  | _, _ => acc

/-- `SidechainMatrix.apply_sidechains`: the static-rule pass (all
source/target stem pairs, in `stem_roles` iteration order) followed by the
masking-recommendation pass. -/
def applySidechains (compress : SCSettings → List ℚ → List ℚ → List ℚ)
    (stems : List (String × List ℚ)) (roles : List (String × String))
    (recs : List MaskingRec) : List (String × List ℚ) :=
  recs.foldl (fun acc rec =>
    match rec.sidechain with
    | none => acc
    | some sc =>
        applyRulePair compress stems
          ⟨sc.frequencyRange, -20, sc.reductionDb, sc.attackMs, sc.releaseMs⟩
          acc sc.source sc.target)
    (sidechainRules.foldl (fun acc rule =>
      ((roles.filter fun p => p.2 == rule.1).map Prod.fst).foldl (fun acc2 s =>
        ((roles.filter fun p => p.2 == rule.2.1).map Prod.fst).foldl (fun acc3 t =>
          applyRulePair compress stems rule.2.2 acc3 s t) acc2) acc) stems)

/-- `name` is the target of some matching static rule (a stem of the rule's
target role, with some stem of the source role present in `stems`) or of
some masking sidechain recommendation whose source is present. -/
def isMatchedTarget (stems : List (String × List ℚ)) (roles : List (String × String))
    (recs : List MaskingRec) (name : String) : Bool :=
  sidechainRules.any (fun rule =>
    roles.any (fun p => p.1 == name && p.2 == rule.2.1) &&
    roles.any (fun q => q.2 == rule.1 && (stems.lookup q.1).isSome))
  || recs.any (fun rec =>
    match rec.sidechain with
    | none => false
    | some sc => sc.target == name && (stems.lookup sc.source).isSome)

theorem zipWith_ms_left (l r : List ℚ) (h : l.length = r.length) :
    List.zipWith (fun m s => m + s)
      (List.zipWith (fun a b => (a + b) / 2) l r)
      (List.zipWith (fun a b => (a - b) / 2) l r) = l := by
  induction l generalizing r with
  | nil => simp
  | cons x xs ih =>
    cases r with
    | nil => simp at h
    | cons y ys =>
      simp only [List.zipWith_cons_cons, List.cons.injEq]
      refine ⟨by ring, ih ys (by simpa using h)⟩

theorem zipWith_ms_right (l r : List ℚ) (h : l.length = r.length) :
    List.zipWith (fun m s => m - s)
      (List.zipWith (fun a b => (a + b) / 2) l r)
      (List.zipWith (fun a b => (a - b) / 2) l r) = r := by
  induction l generalizing r with
  | nil => cases r <;> simp_all
  | cons x xs ih =>
    cases r with
    | nil => simp at h
    | cons y ys =>
      simp only [List.zipWith_cons_cons, List.cons.injEq]
      refine ⟨by ring, ih ys (by simpa using h)⟩

/-- C3: for every stereo buffer (two channels of equal length), converting to
mid/side with `mid=(L+R)/2`, `side=(L-R)/2` and back with `left=mid+side`,
`right=mid-side` returns the buffer exactly, over exact arithmetic. -/
theorem midSide_roundTrip (audio : List ℚ × List ℚ)
    (h : audio.1.length = audio.2.length) :
    toLeftRight (toMidSide audio).1 (toMidSide audio).2 = audio := by
  obtain ⟨l, r⟩ := audio
  simp only [toMidSide, toLeftRight, Prod.mk.injEq]
  exact ⟨zipWith_ms_left l r h, zipWith_ms_right l r h⟩

/-- Witness for C3 at a concrete stereo buffer. -/
theorem midSide_roundTrip_witness :
    ([(1 : ℚ), 2, 3], [(4 : ℚ), -5, 0]).1.length =
      ([(1 : ℚ), 2, 3], [(4 : ℚ), -5, 0]).2.length ∧
    toLeftRight (toMidSide ([(1 : ℚ), 2, 3], [(4 : ℚ), -5, 0])).1
        (toMidSide ([(1 : ℚ), 2, 3], [(4 : ℚ), -5, 0])).2 =
      ([(1 : ℚ), 2, 3], [(4 : ℚ), -5, 0]) :=
  ⟨by decide, midSide_roundTrip ([(1 : ℚ), 2, 3], [(4 : ℚ), -5, 0]) (by decide)⟩

theorem abs_npClip_le {c : ℚ} (hc : 0 ≤ c) (x : ℚ) : |npClip (-c) c x| ≤ c := by
  rw [abs_le, npClip]
  constructor
  · exact le_min (neg_le_self hc) (le_max_left _ _)
  · exact min_le_left _ _

theorem mem_map_clip_bound {c : ℚ} (hc : 0 ≤ c) (L : List ℚ) :
    ∀ s ∈ L.map (npClip (-c) c), |s| ≤ c := by
  intro s hs
  obtain ⟨x, _, rfl⟩ := List.mem_map.mp hs
  exact abs_npClip_le hc x

theorem zipWith_avg_bound {c : ℚ} :
    ∀ (a b : List ℚ), (∀ x ∈ a, |x| ≤ c) → (∀ x ∈ b, |x| ≤ c) →
      ∀ s ∈ List.zipWith (fun u v => (u + v) / 2) a b, |s| ≤ c := by
  intro a
  induction a with
  | nil => intro b _ _ s hs; simp at hs
  | cons x xs ih =>
    intro b ha hb s hs
    cases b with
    | nil => simp at hs
    | cons y ys =>
      simp only [List.zipWith_cons_cons, List.mem_cons] at hs
      rcases hs with rfl | hs
      · have hx := ha x (List.mem_cons_self _ _)
        have hy := hb y (List.mem_cons_self _ _)
        calc |(x + y) / 2| = |x + y| / 2 := by rw [abs_div]; norm_num
          _ ≤ (|x| + |y|) / 2 := by
              have := abs_add x y
              linarith
          _ ≤ c := by linarith
      · exact ih ys (fun z hz => ha z (List.mem_cons_of_mem _ hz))
          (fun z hz => hb z (List.mem_cons_of_mem _ hz)) s hs

/-- C2: for every input buffer and every ceiling, every sample emitted by
`ProLimiter.process` (stereo and mono paths) and by the transparent limiter
has magnitude at most the linear ceiling `c = 10^(ceiling_db/20)`: the chain
ends in an unconditional `np.clip` to `±c`, so no amount of upstream gain can
push a sample past the ceiling.  `c ≥ 0` holds for every `ceiling_db` since
`10^x > 0`. -/
theorem limiter_final_clip_bounds (l r : List ℚ) (c t ρ aC rC : ℚ) (n la k : ℕ)
    (hc : 0 ≤ c) :
    (∀ s ∈ (proLimiterProcess l r c t ρ n).1, |s| ≤ c) ∧
    (∀ s ∈ (proLimiterProcess l r c t ρ n).2, |s| ≤ c) ∧
    (∀ s ∈ proLimiterProcessMono l c t ρ n, |s| ≤ c) ∧
    (∀ s ∈ (transparentLimiter l r c aC rC la k).1, |s| ≤ c) ∧
    (∀ s ∈ (transparentLimiter l r c aC rC la k).2, |s| ≤ c) := by
  refine ⟨mem_map_clip_bound hc _, mem_map_clip_bound hc _, ?_,
    mem_map_clip_bound hc _, mem_map_clip_bound hc _⟩
  exact zipWith_avg_bound _ _ (mem_map_clip_bound hc _) (mem_map_clip_bound hc _)

/-- Witness for C2 at a concrete stereo buffer and concrete parameters. -/
theorem limiter_final_clip_bounds_witness :
    (0 : ℚ) ≤ 1 / 2 ∧
    ((∀ s ∈ (proLimiterProcess [2, -3] [0, 1] (1/2) (1/4) (1/2) 1).1, |s| ≤ (1:ℚ)/2) ∧
     (∀ s ∈ (proLimiterProcess [2, -3] [0, 1] (1/2) (1/4) (1/2) 1).2, |s| ≤ (1:ℚ)/2) ∧
     (∀ s ∈ proLimiterProcessMono [2, -3] (1/2) (1/4) (1/2) 1, |s| ≤ (1:ℚ)/2) ∧
     (∀ s ∈ (transparentLimiter [2, -3] [0, 1] (1/2) (1/3) (2/3) 1 2).1, |s| ≤ (1:ℚ)/2) ∧
     (∀ s ∈ (transparentLimiter [2, -3] [0, 1] (1/2) (1/3) (2/3) 1 2).2, |s| ≤ (1:ℚ)/2)) :=
  ⟨by norm_num,
   limiter_final_clip_bounds [2, -3] [0, 1] (1/2) (1/4) (1/2) (1/3) (2/3) 1 1 2 (by norm_num)⟩

/-- C1 (code bug): `_final_loudness_match` can hand back audio whose true
peak exceeds `ceiling + 0.1` dB.  Starting from a post-limiter state with
true peak exactly at the −1 dBTP ceiling and loudness 1 LU below the −14 LUFS
target, the loop applies +0.7 dB of gain, skips re-limiting (the *pre-gain*
metrics showed the peak at, not above, the ceiling), and then exits because
the remaining LUFS error is 0.3 < 0.5 — returning audio at −0.3 dBTP, above
the −0.9 dBTP bound the ceiling invariant promises. -/
theorem finalLoudnessMatch_exceeds_ceiling :
    (finalLoudnessMatch (-14) (-1) ⟨-1, -15⟩).tp = -3 / 10 ∧
    ¬((finalLoudnessMatch (-14) (-1) ⟨-1, -15⟩).tp ≤ -1 + 1 / 10) := by
  norm_num [finalLoudnessMatch, flmStep, abs_lt]

/-- C10 (code bug): on an all-zero (silent) stereo buffer,
`check_mono_compatibility`'s Pearson correlation is `0/0 = NaN` (modeled as
`none`): both channels have zero variance and `np.corrcoef` has no epsilon
floor, so the report is not NaN-free, whatever the float `sqrt`/`log10`
return elsewhere.  The NaN also makes `correlation >= 0.1` false, so the
silent mix is reported mono-incompatible. -/
theorem checkMonoCompatibility_silence_nan (sqrt0 log10f : ℚ → ℚ) :
    (checkMonoCompatibility sqrt0 log10f [0, 0, 0, 0]
        [0, 0, 0, 0]).correlation = none ∧
    (checkMonoCompatibility sqrt0 log10f [0, 0, 0, 0]
        [0, 0, 0, 0]).monoCompatible = false := by
  have hv : varSum [(0 : ℚ), 0, 0, 0] = 0 := by
    norm_num [varSum, covSum, centered, listMean]
  constructor
  · simp [checkMonoCompatibility, corrcoefQ, hv]
  · simp [checkMonoCompatibility, corrcoefQ, hv]

/-- C4: for every audio buffer and every stem name whose lower-cased form
contains a keyword from the filename tables, `SourceClassifier.classify`
returns the first matching table's role with confidence exactly 1.0,
whatever the audio contains — the feature fallback is never consulted
(`classify` returns before touching `fallback`/`audio`). -/
theorem classify_filename_priority {α : Type} (fallback : α → String × ℚ)
    (audio : α) (name : String)
    (h : filenamePatterns.any
      (fun e => e.1.any (fun p => containsSub p.toList (lowerChars name))) = true) :
    ∃ role, classifyByFilename name = some role ∧
      classify fallback audio name = (role, 1) := by
  cases hc : classifyByFilename name with
  | some role => exact ⟨role, rfl, by simp [classify, hc]⟩
  | none =>
    exfalso
    rw [classifyByFilename, List.findSome?_eq_none_iff] at hc
    obtain ⟨e, he, hp⟩ := List.any_eq_true.mp h
    have hne := hc e he
    simp only [hp, if_true] at hne
    exact Option.noConfusion hne

/-- Witness for C4: `"Kick_01.wav"` matches the kick table, and `classify`
returns `("kick", 1.0)` regardless of the audio (here a unit stub whose
fallback answers `("other", 0)`). -/
theorem classify_filename_priority_witness :
    (filenamePatterns.any
      (fun e => e.1.any (fun p => containsSub p.toList (lowerChars "Kick_01.wav"))) = true) ∧
    (∃ role, classifyByFilename "Kick_01.wav" = some role ∧
      classify (fun (_ : Unit) => ("other", (0 : ℚ))) () "Kick_01.wav" = (role, 1)) ∧
    classifyByFilename "Kick_01.wav" = some "kick" :=
  ⟨by decide,
   classify_filename_priority (fun (_ : Unit) => ("other", (0 : ℚ))) () "Kick_01.wav" (by decide),
   by decide⟩

theorem covSum_comm (a b : List ℚ) : covSum a b = covSum b a := by
  unfold covSum
  rw [List.zipWith_comm_of_comm _ mul_comm]

theorem corrcoefQ_comm (sqrt0 : ℚ → ℚ) (a b : List ℚ) :
    corrcoefQ sqrt0 a b = corrcoefQ sqrt0 b a := by
  unfold corrcoefQ
  rw [covSum_comm a b, mul_comm (sqrt0 (varSum a)) (sqrt0 (varSum b))]
  exact if_congr or_comm rfl rfl

/-- C6: masking severity is symmetric in the two stems: the band envelopes
are computed per stem, the Pearson correlation and the mean element-wise
minimum are symmetric, hence so is `severity = max(0, (corr+overlap)/2)` —
for every band mask, every pair of spectrograms and every square root. -/
theorem detectConflictSeverity_symm (sqrt0 : ℚ → ℚ) (mask : List Bool)
    (spec1 spec2 : List (List ℚ)) :
    detectConflictSeverity sqrt0 mask spec1 spec2 =
      detectConflictSeverity sqrt0 mask spec2 spec1 := by
  unfold detectConflictSeverity
  generalize bandEnvelope mask spec1 = e1
  generalize bandEnvelope mask spec2 = e2
  unfold conflictCore
  rw [corrcoefQ_comm, List.zipWith_comm_of_comm min min_comm (normEnv e1) (normEnv e2)]
  exact if_congr and_comm rfl rfl

theorem stemGain_no_guards {m : ℚ} {role : String} {a : StemAnalysis}
    (h1 : ¬(a.rmsDb < -60)) (h2 : ¬(-3 < a.peakDb)) :
    stemGain m role a = npClip (-24) 12 (m + refLevel role - a.rmsDb) := by
  simp [stemGain, h1, h2]

theorem stemGain_quiet_cap {m : ℚ} {role : String} {a : StemAnalysis}
    (h : a.rmsDb < -60) : stemGain m role a ≤ 6 := by
  simp only [stemGain, if_pos h]
  split
  · exact le_trans (min_le_left _ _) (min_le_right _ _)
  · exact min_le_right _ _

theorem stemGain_peak_cap {m : ℚ} {role : String} {a : StemAnalysis}
    (h : -3 < a.peakDb) : stemGain m role a ≤ -(a.peakDb - (-6)) := by
  simp only [stemGain, if_pos h]
  exact min_le_right _ _

theorem stemGain_le_twelve (m : ℚ) (role : String) (a : StemAnalysis) :
    stemGain m role a ≤ 12 := by
  simp only [stemGain, npClip]
  have h0 : min 12 (max (-24) (m + refLevel role - a.rmsDb)) ≤ (12 : ℚ) :=
    min_le_left _ _
  split_ifs
  · exact le_trans (min_le_left _ _) (le_trans (min_le_left _ _) h0)
  · exact le_trans (min_le_left _ _) h0
  · exact le_trans (min_le_left _ _) h0
  · exact h0

theorem stemGain_above_neg24 (m : ℚ) (role : String) (a : StemAnalysis)
    (h : a.peakDb ≤ 18) : -24 ≤ stemGain m role a := by
  simp only [stemGain, npClip]
  have h0 : (-24 : ℚ) ≤ min 12 (max (-24) (m + refLevel role - a.rmsDb)) :=
    le_min (by norm_num) (le_max_left _ _)
  have h6 : (-24 : ℚ) ≤ 6 := by norm_num
  have hc : (-24 : ℚ) ≤ -(a.peakDb - (-6)) := by linarith
  split_ifs
  · exact le_min (le_min h0 h6) hc
  · exact le_min h0 hc
  · exact le_min h0 h6
  · exact h0

/-- C7 counterexample: the returned gain does *not* always lie in
`[-24, +12]`.  A single stem measuring +40 dB RMS and +40 dB peak (constant
amplitude 100) gets `clip(40 - 12 - 40) = -12`, but the loud-stem guard then
forces `min(-12, -(40+6)) = -46 dB`, below the claimed `-24` floor. -/
theorem balancer_gain_below_range :
    calculateOptimalLevels [("loud", ⟨40, 40⟩)] [] = [("loud", -46)] ∧
    ¬((-24 : ℚ) ≤ -46) := by
  have href : refLevel "other" = -12 := by decide
  constructor
  · norm_num [calculateOptimalLevels, stemGain, maxRmsOf, listMax, href,
      npClip, min_def, max_def]
  · norm_num

/-- C7 amended: each returned gain is
`clip(max_rms + offset[role] − rms_db, −24, 12)` when neither guard fires;
stems below −60 dB RMS are capped at +6 dB; stems peaking above −3 dB are
capped at `−(peak_db + 6)` dB; the gain never exceeds +12 and is at least
−24 *provided* the stem's peak is at most +18 dBFS (the loud-peak guard can
push it below −24 for hotter stems, as the counterexample shows). -/
theorem calculateOptimalLevels_gain_bounds (stems : List (String × StemAnalysis))
    (roles : List (String × String)) :
    ∀ p ∈ calculateOptimalLevels stems roles,
      ∃ a : StemAnalysis, (p.1, a) ∈ stems ∧
        p.2 = stemGain (maxRmsOf stems) ((roles.lookup p.1).getD "other") a ∧
        (¬(a.rmsDb < -60) → ¬(-3 < a.peakDb) →
          p.2 = npClip (-24) 12 (maxRmsOf stems +
            refLevel ((roles.lookup p.1).getD "other") - a.rmsDb)) ∧
        (a.rmsDb < -60 → p.2 ≤ 6) ∧
        (-3 < a.peakDb → p.2 ≤ -(a.peakDb - (-6))) ∧
        p.2 ≤ 12 ∧
        (a.peakDb ≤ 18 → -24 ≤ p.2) := by
  intro p hp
  obtain ⟨s, hs, rfl⟩ := List.mem_map.mp hp
  refine ⟨s.2, by simpa using hs, rfl, ?_, ?_, ?_, ?_, ?_⟩
  · exact fun h1 h2 => stemGain_no_guards h1 h2
  · exact fun h => stemGain_quiet_cap h
  · exact fun h => stemGain_peak_cap h
  · exact stemGain_le_twelve _ _ _
  · exact fun h => stemGain_above_neg24 _ _ _ h

/-- Witness for the amended C7 at a concrete one-stem input. -/
theorem calculateOptimalLevels_gain_bounds_witness :
    ("kick1", (-6 : ℚ)) ∈
      calculateOptimalLevels [("kick1", ⟨-20, -2⟩)] [("kick1", "kick")] ∧
    (-6 : ℚ) ≤ 12 ∧ (-24 : ℚ) ≤ -6 := by
  have hmem : ("kick1", (-6 : ℚ)) ∈
      calculateOptimalLevels [("kick1", ⟨-20, -2⟩)] [("kick1", "kick")] := by
    have hrole : (List.lookup "kick1" [("kick1", "kick")]).getD "other" = "kick" := by
      decide
    have href : refLevel "kick" = -6 := by decide
    norm_num [calculateOptimalLevels, stemGain, maxRmsOf, listMax, hrole, href,
      npClip, min_def, max_def]
  obtain ⟨a, ha, _, _, _, _, h12, hlow⟩ :=
    calculateOptimalLevels_gain_bounds [("kick1", ⟨-20, -2⟩)] [("kick1", "kick")]
      ("kick1", (-6 : ℚ)) hmem
  have haa : a = (⟨-20, -2⟩ : StemAnalysis) := by simpa using ha
  exact ⟨hmem, h12, hlow (by rw [haa]; norm_num)⟩

/-- C5 counterexample: the tempo override does not behave as claimed when
the winner is already an electronic genre, and the `elif` gives house
priority over techno on the overlap.  First input: ambiguous scores (winner
`house` at 16/63 ≈ 0.254 < 0.40) with tempo 124 — the code returns `house`
with confidence 16/63, *not* ≥ 0.45, because the override skips winners in
{house, techno, edm}.  Second input: winner `rock` at 20/57 ≈ 0.351 < 0.40
with tempo 129 ∈ [128, 145] — the code returns `house` (the 118–130 branch
fires first), not `techno`. -/
theorem detectGenre_override_counterexample :
    ((maxByFirst (normalizeScores (rawScores
        ⟨124, 0.22, 0.07, 0.5, 0.12, 0.3, 0.09, 5, 10, 0.3, 0⟩))).2 < 0.40 ∧
     detectGenreDecision ⟨124, 0.22, 0.07, 0.5, 0.12, 0.3, 0.09, 5, 10, 0.3, 0⟩ =
       ("house", 16 / 63) ∧
     ¬((0.45 : ℚ) ≤ 16 / 63)) ∧
    ((maxByFirst (normalizeScores (rawScores
        ⟨129, 0.10, 0.03, 0.55, 0.05, 0.3, 0.05, 8, 19, 0.3, 0⟩))).2 < 0.40 ∧
     (128 ≤ (129 : ℚ) ∧ (129 : ℚ) ≤ 145) ∧
     detectGenreDecision ⟨129, 0.10, 0.03, 0.55, 0.05, 0.3, 0.05, 8, 19, 0.3, 0⟩ =
       ("house", 0.45) ∧
     ("house" : String) ≠ "techno") := by
  have hA : maxByFirst (normalizeScores (rawScores
      ⟨124, 0.22, 0.07, 0.5, 0.12, 0.3, 0.09, 5, 10, 0.3, 0⟩)) = ("house", 16 / 63) := by
    norm_num [rawScores, houseScore, technoScore, edmScore, hiphopScore,
      popScore, rockScore, rnbScore, acousticScore, normalizeScores, maxByFirst]
  have hB : maxByFirst (normalizeScores (rawScores
      ⟨129, 0.10, 0.03, 0.55, 0.05, 0.3, 0.05, 8, 19, 0.3, 0⟩)) = ("rock", 20 / 57) := by
    norm_num [rawScores, houseScore, technoScore, edmScore, hiphopScore,
      popScore, rockScore, rnbScore, acousticScore, normalizeScores, maxByFirst]
  have hmemH : ("house" : String) ∈ (["house", "techno", "edm"] : List String) := by
    decide
  have h1 : detectGenreDecision ⟨124, 0.22, 0.07, 0.5, 0.12, 0.3, 0.09, 5, 10, 0.3, 0⟩ =
      ("house", 16 / 63) := by
    unfold detectGenreDecision
    rw [hA]
    unfold applyTempoOverride
    rw [if_neg (fun h => h.2 hmemH), if_neg (fun h => h.2 hmemH)]
  have h2 : detectGenreDecision ⟨129, 0.10, 0.03, 0.55, 0.05, 0.3, 0.05, 8, 19, 0.3, 0⟩ =
      ("house", 0.45) := by
    unfold detectGenreDecision
    rw [hB]
    unfold applyTempoOverride
    rw [if_pos ⟨⟨by norm_num, by norm_num⟩, by decide⟩, if_pos (by norm_num)]
  refine ⟨⟨?_, h1, by norm_num⟩, ⟨?_, ⟨by norm_num, by norm_num⟩, h2, by decide⟩⟩
  · rw [hA]; norm_num
  · rw [hB]; norm_num

/-- C5 amended: the tempo override applies only when the winning genre is
not already one of house/techno/edm and its normalized score is below 0.40;
then tempo in [118, 130] yields exactly `("house", 0.45)`, and tempo in
[128, 145] but outside [118, 130] yields exactly `("techno", 0.40)` (the
house branch has priority on the overlap 128–130). -/
theorem detectGenre_override_amended (a : AudioAnalysis)
    (hb : (maxByFirst (normalizeScores (rawScores a))).1 ∉
      (["house", "techno", "edm"] : List String))
    (hc : (maxByFirst (normalizeScores (rawScores a))).2 < 0.40) :
    ((118 ≤ a.tempo ∧ a.tempo ≤ 130) →
      detectGenreDecision a = ("house", 0.45)) ∧
    (¬(118 ≤ a.tempo ∧ a.tempo ≤ 130) → (128 ≤ a.tempo ∧ a.tempo ≤ 145) →
      detectGenreDecision a = ("techno", 0.40)) := by
  unfold detectGenreDecision applyTempoOverride
  constructor
  · intro ht
    rw [if_pos ⟨ht, hb⟩, if_pos hc]
  · intro hnt ht2
    rw [if_neg (fun h => hnt h.1), if_pos ⟨ht2, hb⟩, if_pos hc]

/-- Witness for the amended C5: a rock-flavored analysis at tempo 124 with
winner `rock` at 9/23 ≈ 0.391 < 0.40 is overridden to `("house", 0.45)`. -/
theorem detectGenre_override_amended_witness :
    (maxByFirst (normalizeScores (rawScores
        ⟨124, 0.10, 0.03, 0.55, 0.05, 0.3, 0.05, 8, 17, 0.3, 0⟩))).1 ∉
      (["house", "techno", "edm"] : List String) ∧
    (maxByFirst (normalizeScores (rawScores
        ⟨124, 0.10, 0.03, 0.55, 0.05, 0.3, 0.05, 8, 17, 0.3, 0⟩))).2 < 0.40 ∧
    detectGenreDecision ⟨124, 0.10, 0.03, 0.55, 0.05, 0.3, 0.05, 8, 17, 0.3, 0⟩ =
      ("house", 0.45) := by
  have hW : maxByFirst (normalizeScores (rawScores
      ⟨124, 0.10, 0.03, 0.55, 0.05, 0.3, 0.05, 8, 17, 0.3, 0⟩)) = ("rock", 9 / 23) := by
    norm_num [rawScores, houseScore, technoScore, edmScore, hiphopScore,
      popScore, rockScore, rnbScore, acousticScore, normalizeScores, maxByFirst]
  have hb : (maxByFirst (normalizeScores (rawScores
      ⟨124, 0.10, 0.03, 0.55, 0.05, 0.3, 0.05, 8, 17, 0.3, 0⟩))).1 ∉
      (["house", "techno", "edm"] : List String) := by
    rw [hW]; decide
  have hc : (maxByFirst (normalizeScores (rawScores
      ⟨124, 0.10, 0.03, 0.55, 0.05, 0.3, 0.05, 8, 17, 0.3, 0⟩))).2 < 0.40 := by
    rw [hW]; norm_num
  exact ⟨hb, hc,
    (detectGenre_override_amended _ hb hc).1 ⟨by norm_num, by norm_num⟩⟩

/-- C8: with `ratio ≥ 1`, `sidechain_compress` leaves each target sample
unchanged where the smoothed sidechain envelope (in dB) does not exceed the
threshold, scales it by `10^(−(env_db − thr)·(1 − 1/ratio)/20)` where it
does, and never increases a sample's magnitude.  The properties `10^0 = 1`,
`10^(−x/20) ≤ 1` for `x ≥ 0`, and `10^y ≥ 0` of the float power are taken as
hypotheses on `pow10f`. -/
theorem sidechainCompress_gain_law (log10f pow10f : ℚ → ℚ) (aA rA thr ratio : ℚ)
    (audio sidechain : List ℚ) (hratio : 1 ≤ ratio) (hpow0 : pow10f 0 = 1)
    (hpowle : ∀ x, 0 ≤ x → pow10f (-x / 20) ≤ 1) (hpownn : ∀ x, 0 ≤ pow10f x) :
    ∀ i, i < (sidechainCompress log10f pow10f aA rA thr ratio audio sidechain).length →
      (envDb log10f aA rA sidechain i ≤ thr →
        (sidechainCompress log10f pow10f aA rA thr ratio audio sidechain).getD i 0 =
          audio.getD i 0) ∧
      (thr < envDb log10f aA rA sidechain i →
        (sidechainCompress log10f pow10f aA rA thr ratio audio sidechain).getD i 0 =
          audio.getD i 0 *
            pow10f (-((envDb log10f aA rA sidechain i - thr) * (1 - 1 / ratio)) / 20)) ∧
      |(sidechainCompress log10f pow10f aA rA thr ratio audio sidechain).getD i 0| ≤
        |audio.getD i 0| := by
  intro i hi
  have hlen := hi
  rw [sidechainCompress, List.length_zipWith, lt_min_iff] at hlen
  have hienv : i < (scEnvelope aA rA sidechain).length := by
    have h2 := hlen.2
    rwa [sidechainGains, List.length_map] at h2
  have hout : (sidechainCompress log10f pow10f aA rA thr ratio audio sidechain).getD i 0 =
      audio.getD i 0 * (sidechainGains log10f pow10f aA rA thr ratio sidechain).getD i 0 := by
    rw [sidechainCompress,
      List.getD_eq_getElem _ _ (by rw [List.length_zipWith, lt_min_iff]; exact hlen),
      List.getElem_zipWith, List.getD_eq_getElem _ _ hlen.1,
      List.getD_eq_getElem _ _ hlen.2]
  have hgain : (sidechainGains log10f pow10f aA rA thr ratio sidechain).getD i 0 =
      pow10f (-(if thr < envDb log10f aA rA sidechain i then
        (envDb log10f aA rA sidechain i - thr) * (1 - 1 / ratio) else 0) / 20) := by
    rw [sidechainGains,
      List.getD_eq_getElem _ _ (by rw [List.length_map]; exact hienv),
      List.getElem_map, envDb, List.getD_eq_getElem _ _ hienv]
  have hone : pow10f (-(0 : ℚ) / 20) = 1 := by
    rw [show (-(0 : ℚ) / 20) = 0 by norm_num, hpow0]
  refine ⟨?_, ?_, ?_⟩
  · intro hle
    rw [hout, hgain, if_neg (not_lt.mpr hle), hone, mul_one]
  · intro hlt
    rw [hout, hgain, if_pos hlt]
  · have hrpos : (0 : ℚ) < ratio := lt_of_lt_of_le one_pos hratio
    have hinv : 1 / ratio ≤ 1 := by rw [div_le_one hrpos]; exact hratio
    have hgle : (sidechainGains log10f pow10f aA rA thr ratio sidechain).getD i 0 ≤ 1 := by
      rw [hgain]
      by_cases hlt : thr < envDb log10f aA rA sidechain i
      · rw [if_pos hlt]
        exact hpowle _ (mul_nonneg (sub_nonneg.mpr hlt.le) (sub_nonneg.mpr hinv))
      · rw [if_neg hlt, hone]
    have hgnn : 0 ≤ (sidechainGains log10f pow10f aA rA thr ratio sidechain).getD i 0 := by
      rw [hgain]; exact hpownn _
    rw [hout, abs_mul, abs_of_nonneg hgnn]
    calc |audio.getD i 0| * (sidechainGains log10f pow10f aA rA thr ratio sidechain).getD i 0
        ≤ |audio.getD i 0| * 1 := mul_le_mul_of_nonneg_left hgle (abs_nonneg _)
      _ = |audio.getD i 0| := mul_one _

/-- Witness for C8 at a concrete target/sidechain pair with `ratio = 2` and
a concrete monotone stand-in for the float power. -/
theorem sidechainCompress_gain_law_witness :
    (1 : ℚ) ≤ 2 ∧
    |(sidechainCompress (fun x => x) (fun x => if x < 0 then (1 : ℚ) / 2 else 1)
        (1/2) (1/2) 0 2 [1, 2] [3, 0]).getD 0 0| ≤ |([1, 2] : List ℚ).getD 0 0| := by
  have h := sidechainCompress_gain_law (fun x => x)
    (fun x => if x < 0 then (1 : ℚ) / 2 else 1) (1/2) (1/2) 0 2 [1, 2] [3, 0]
    (by norm_num) (by norm_num)
    (fun x hx => by dsimp only; split_ifs <;> norm_num)
    (fun x => by dsimp only; split_ifs <;> norm_num)
  have hlen : 0 < (sidechainCompress (fun x => x)
      (fun x => if x < 0 then (1 : ℚ) / 2 else 1) (1/2) (1/2) 0 2 [1, 2] [3, 0]).length := by
    simp [sidechainCompress, sidechainGains, scEnvelope, scEnvAux]
  exact ⟨by norm_num, (h 0 hlen).2.2⟩

theorem updateStem_map_fst (st : List (String × List ℚ)) (n : String) (v : List ℚ) :
    (updateStem st n v).map Prod.fst = st.map Prod.fst := by
  induction st with
  | nil => rfl
  | cons p ps ih =>
    simp only [updateStem, List.map_cons, ih]
    by_cases hp : p.1 = n <;> simp [hp]

theorem updateStem_lookup_ne (st : List (String × List ℚ)) (n : String)
    (v : List ℚ) (name : String) (h : name ≠ n) :
    (updateStem st n v).lookup name = st.lookup name := by
  induction st with
  | nil => rfl
  | cons p ps ih =>
    obtain ⟨pk, pv⟩ := p
    by_cases hp : pk = n
    · have hrw : updateStem ((pk, pv) :: ps) n v = (pk, v) :: updateStem ps n v := by
        simp [updateStem, hp]
      have hbne : (name == pk) = false := by
        rw [beq_eq_false_iff_ne, hp]
        exact h
      rw [hrw]
      simp only [List.lookup, hbne, ih]
    · have hrw : updateStem ((pk, pv) :: ps) n v = (pk, pv) :: updateStem ps n v := by
        simp [updateStem, hp]
      rw [hrw]
      cases hbeq : (name == pk) <;> simp only [List.lookup, hbeq, ih]

theorem foldl_preserve {α β : Type} (P : α → Prop) :
    ∀ (l : List β) (step : α → β → α),
      (∀ acc x, x ∈ l → P acc → P (step acc x)) →
      ∀ init, P init → P (l.foldl step init)
  | [], _, _, _, h => h
  | x :: xs, step, hstep, init, h =>
      foldl_preserve P xs step
        (fun acc y hy hacc => hstep acc y (List.mem_cons_of_mem x hy) hacc)
        (step init x) (hstep init x (List.mem_cons_self x xs) h)

theorem applyRulePair_preserve (compress : SCSettings → List ℚ → List ℚ → List ℚ)
    (stems : List (String × List ℚ)) (settings : SCSettings)
    (acc : List (String × List ℚ)) (s t name : String)
    (hguard : (stems.lookup s).isSome = true → t ≠ name)
    (hP : acc.lookup name = stems.lookup name ∧ acc.map Prod.fst = stems.map Prod.fst) :
    (applyRulePair compress stems settings acc s t).lookup name = stems.lookup name ∧
    (applyRulePair compress stems settings acc s t).map Prod.fst = stems.map Prod.fst := by
  unfold applyRulePair
  cases hsrc : stems.lookup s with
  | none => simpa [hsrc] using hP
  | some src =>
    cases htgt : acc.lookup t with
    | none => simpa [hsrc, htgt] using hP
    | some tgt =>
      simp only [hsrc, htgt]
      have hne : name ≠ t := (hguard (by rw [hsrc]; rfl)).symm
      constructor
      · rw [updateStem_lookup_ne _ _ _ _ hne]
        exact hP.1
      · rw [updateStem_map_fst]
        exact hP.2

/-- C9: `apply_sidechains` only rewrites the entries of ducked targets.
Every stem that is not the target of a matching static rule or masking
recommendation keeps exactly its input buffer in the output; the key set of
the stem dict is preserved; and the function is a pure function of its
inputs (sources are always read from the original `stems`, and the working
dict starts from a copy), so re-running it on the same original inputs
yields the same result. -/
theorem applySidechains_frame (compress : SCSettings → List ℚ → List ℚ → List ℚ)
    (stems : List (String × List ℚ)) (roles : List (String × String))
    (recs : List MaskingRec) (name : String)
    (h : isMatchedTarget stems roles recs name = false) :
    (applySidechains compress stems roles recs).lookup name = stems.lookup name ∧
    (applySidechains compress stems roles recs).map Prod.fst = stems.map Prod.fst ∧
    applySidechains compress stems roles recs = applySidechains compress stems roles recs := by
  unfold isMatchedTarget at h
  rw [Bool.or_eq_false_iff] at h
  obtain ⟨hstat, hrec⟩ := h
  rw [List.any_eq_false] at hstat
  rw [List.any_eq_false] at hrec
  have P_main :
      (applySidechains compress stems roles recs).lookup name = stems.lookup name ∧
      (applySidechains compress stems roles recs).map Prod.fst = stems.map Prod.fst := by
    unfold applySidechains
    refine foldl_preserve
      (fun acc : List (String × List ℚ) =>
        acc.lookup name = stems.lookup name ∧ acc.map Prod.fst = stems.map Prod.fst)
      recs _ ?_ _ ?_
    · -- masking-recommendation pass
      intro acc rec hrecmem hP
      cases hsc : rec.sidechain with
      | none => simpa [hsc] using hP
      | some sc =>
        simp only [hsc]
        refine applyRulePair_preserve _ _ _ _ _ _ _ ?_ hP
        intro hsome heq
        have hm : (match rec.sidechain with
            | none => false
            | some sc' => sc'.target == name && (stems.lookup sc'.source).isSome) =
            (sc.target == name && (stems.lookup sc.source).isSome) := by rw [hsc]
        refine hrec rec hrecmem ?_
        rw [hm]
        rw [Bool.and_eq_true]
        exact ⟨beq_iff_eq.mpr heq, hsome⟩
    · -- static-rule pass
      refine foldl_preserve
        (fun acc : List (String × List ℚ) =>
          acc.lookup name = stems.lookup name ∧ acc.map Prod.fst = stems.map Prod.fst)
        sidechainRules _ ?_ stems ⟨rfl, rfl⟩
      intro acc rule hrule hP
      refine foldl_preserve
        (fun acc : List (String × List ℚ) =>
          acc.lookup name = stems.lookup name ∧ acc.map Prod.fst = stems.map Prod.fst)
        _ _ ?_ acc hP
      intro acc2 s hs hP2
      refine foldl_preserve
        (fun acc : List (String × List ℚ) =>
          acc.lookup name = stems.lookup name ∧ acc.map Prod.fst = stems.map Prod.fst)
        _ _ ?_ acc2 hP2
      intro acc3 t ht hP3
      refine applyRulePair_preserve _ _ _ _ _ _ _ ?_ hP3
      intro hsome heq
      obtain ⟨p, hpfil, hp1⟩ := List.mem_map.mp ht
      obtain ⟨hproles, hp2⟩ := List.mem_filter.mp hpfil
      obtain ⟨q, hqfil, hq1⟩ := List.mem_map.mp hs
      obtain ⟨hqroles, hq2⟩ := List.mem_filter.mp hqfil
      refine hstat rule hrule ?_
      rw [Bool.and_eq_true]
      constructor
      · exact List.any_eq_true.mpr
          ⟨p, hproles, by rw [Bool.and_eq_true]; exact ⟨beq_iff_eq.mpr (hp1.trans heq), hp2⟩⟩
      · exact List.any_eq_true.mpr
          ⟨q, hqroles, by rw [Bool.and_eq_true]; exact ⟨hq2, by rw [hq1]; exact hsome⟩⟩
  exact ⟨P_main.1, P_main.2, rfl⟩

/-- Witness for C9: with stems `kick1`/`pad1`, roles kick/pad and no masking
recommendations, `pad1` is no rule's target and passes through unchanged,
whatever the compressor does. -/
theorem applySidechains_frame_witness :
    isMatchedTarget [("kick1", [1]), ("pad1", [2])]
      [("kick1", "kick"), ("pad1", "pad")] [] "pad1" = false ∧
    (applySidechains (fun _ _ _ => []) [("kick1", [1]), ("pad1", [2])]
      [("kick1", "kick"), ("pad1", "pad")] []).lookup "pad1" =
      ([("kick1", [1]), ("pad1", [2])] : List (String × List ℚ)).lookup "pad1" :=
  ⟨by decide,
   (applySidechains_frame (fun _ _ _ => []) [("kick1", [1]), ("pad1", [2])]
     [("kick1", "kick"), ("pad1", "pad")] [] "pad1" (by decide)).1⟩

end AudioEngine
